import Mathlib

/-!
Verification of the orgsync concurrent repository synchronization engine
(package sync, src/sync/sync.go) against its natural-language specification.

Conventions of the shallow embedding:
* Go errors are modelled as Option String (none = nil, some msg = error with
  message msg); the cancellation error context.Canceled is the string
  "context canceled".
* time.Time is modelled as Option Nat (none = the zero time); timestamps are
  abstract clock readings, monotone across a run.
* The bubbletea channel/goroutine machinery is modelled as explicit small-step
  transition relations; Go select over several ready cases is nondeterministic,
  so each ready branch is a separate transition.
-/

set_option maxHeartbeats 1000000

namespace OrgSync

/-- The five lifecycle states of a repository record (RepositoryStatus
constants in sync.go). -/
inductive RepositoryStatus where
  | pending
  | cloning
  | fetching
  | completed
  | failed
deriving DecidableEq, Repr

/-- The condition status == StatusCloning || status == StatusFetching used by
updateRepositoryStatus (sync.go line 438). -/
def RepositoryStatus.activeCheck (s : RepositoryStatus) : Bool :=
  s == .cloning || s == .fetching

/-- The condition status == StatusCompleted || status == StatusFailed used by
updateRepositoryStatus (sync.go line 440). -/
def RepositoryStatus.terminalCheck (s : RepositoryStatus) : Bool :=
  s == .completed || s == .failed

/-- A repository and its sync status (struct Repository in sync.go).
StartTime/EndTime are Option Nat (none = Go zero time), Error is
Option String (none = nil). -/
structure Repository where
  name : String
  status : RepositoryStatus
  error : Option String
  startTime : Option Nat
  endTime : Option Nat
deriving DecidableEq, Repr

/-- A freshly discovered repository record: Pending, no error, zero times
(fetchRepositories, sync.go lines 585-591). -/
def initRepository (name : String) : Repository :=
  { name := name, status := .pending, error := none, startTime := none, endTime := none }

/-- Sync configuration (struct SyncConfig in sync.go); durations in abstract
clock units. -/
structure SyncConfig where
  maxConcurrency : Nat
  timeout : Nat
  retryAttempts : Nat
  retryDelay : Nat
deriving DecidableEq, Repr

/-- DefaultSyncConfig (sync.go lines 65-72). -/
def DefaultSyncConfig : SyncConfig :=
  { maxConcurrency := 5, timeout := 30, retryAttempts := 2, retryDelay := 1 }

/-- The body of the matching branch of updateRepositoryStatus (sync.go lines
434-443): set status and error; stamp StartTime with the current clock on an
active status, else stamp EndTime on a terminal status. -/
def applyToRecord (r : Repository) (status : RepositoryStatus)
    (err : Option String) (now : Nat) : Repository :=
  { r with
    status := status
    error := err
    startTime := if status.activeCheck then some now else r.startTime
    endTime :=
      if status.activeCheck then r.endTime
      else if status.terminalCheck then some now else r.endTime }

/-- updateRepositoryStatus (sync.go lines 432-446): find the first record with
the given name, apply the update to it, leave the rest unchanged (the Go loop
breaks after the first match); unknown names change nothing. -/
def updateRepositoryStatus (repos : List Repository) (name : String)
    (status : RepositoryStatus) (err : Option String) (now : Nat) :
    List Repository :=
  match repos with
  | [] => []
  | r :: rs =>
    if r.name = name then applyToRecord r status err now :: rs
    else r :: updateRepositoryStatus rs name status err now

/-- countCompleted (sync.go lines 534-542): counts records whose status is
StatusCompleted or StatusFailed (both terminal states count). -/
def countCompleted (repos : List Repository) : Nat :=
  repos.countP (fun r => r.status == .completed || r.status == .failed)

/-- countFailed (sync.go lines 544-552): counts records whose status is
StatusFailed. -/
def countFailed (repos : List Repository) : Nat :=
  repos.countP (fun r => r.status == .failed)

/-- The run-completion condition of the Update loop (sync.go lines 291-296):
Done is set exactly when countCompleted() equals the number of records. -/
def isDone (repos : List Repository) : Bool :=
  countCompleted repos == repos.length

/-- The completed counter of generateSummary (sync.go lines 554-566): counts
only records whose status is StatusCompleted. -/
def summaryCompleted (repos : List Repository) : Nat :=
  repos.countP (fun r => r.status == .completed)

/-- The failed counter of generateSummary (sync.go lines 554-566): counts
records whose status is StatusFailed. -/
def summaryFailed (repos : List Repository) : Nat :=
  repos.countP (fun r => r.status == .failed)

/-- Substring search on character lists, the semantics of strings.Contains:
sub occurs contiguously inside the list. -/
def listHasSub (sub : List Char) : List Char → Bool
  | [] => sub.isEmpty
  | c :: cs => sub.isPrefixOf (c :: cs) || listHasSub sub cs

/-- strings.Contains(s, sub): sub is a contiguous substring of s. -/
def goContains (s sub : String) : Bool :=
  listHasSub sub.data s.data

/-- isNonRetryableError (sync.go lines 747-758): nil is retryable; an error is
non-retryable iff its message contains "authentication", "permission denied",
"not found" or "repository not found". -/
def isNonRetryableError (err : Option String) : Bool :=
  match err with
  | none => false
  | some s =>
    goContains s "authentication" ||
    goContains s "permission denied" ||
    goContains s "not found" ||
    goContains s "repository not found"

/-- The message of Go context.Canceled, returned by ctx.Err() after
cancellation. -/
def ctxCanceled : String := "context canceled"

/-- syncRepo (sync.go lines 686-696): if a local copy exists, fetch, else
clone. The two external operations are abstracted by their outcomes. -/
def syncRepo (localExists : Bool) (fetchOutcome cloneOutcome : Option String) :
    Option String :=
  if localExists then fetchOutcome else cloneOutcome

/-- Environment for one run of syncRepoWithRetry: the configured retry budget,
the outcome of the k-th syncRepo invocation (attempt numbering starts at 0),
and whether the run-level context fires during the retry wait that precedes
attempt k (only consulted for k ≥ 1). -/
structure RetryEnv where
  retryAttempts : Nat
  exec : Nat → Option String
  cancelDuringWait : Nat → Bool

/-- One iteration onward of the loop of syncRepoWithRetry (sync.go lines
658-684), returning (result, number of syncRepo invocations made, number of
completed retryDelay waits). The Go loop runs attempt = a, a+1, ...,
retryAttempts; before every attempt except the first it waits retryDelay,
returning ctx.Err() at once if the context fires during the wait; a nil result
returns nil; a non-retryable error breaks; the last error is returned when the
budget is exhausted. -/
def retryFrom (env : RetryEnv) (attempt : Nat) (lastErr : Option String) :
    Option String × Nat × Nat :=
  if _h : attempt > env.retryAttempts then (lastErr, 0, 0)
  else
    if attempt > 0 && env.cancelDuringWait attempt then
      (some ctxCanceled, 0, 0)
    else
      let waits : Nat := if attempt > 0 then 1 else 0
      match env.exec attempt with
      | none => (none, 1, waits)
      | some e =>
        if isNonRetryableError (some e) then (some e, 1, waits)
        else
          let rest := retryFrom env (attempt + 1) (some e)
          (rest.1, rest.2.1 + 1, rest.2.2 + waits)
termination_by env.retryAttempts + 1 - attempt
decreasing_by omega

/-- syncRepoWithRetry (sync.go lines 658-684): run the retry loop from
attempt 0 with no last error. -/
def syncRepoWithRetry (env : RetryEnv) : Option String × Nat × Nat :=
  retryFrom env 0 none

/-- fetchRepositories (sync.go lines 577-594), with the external listing call
abstracted by its result: on a listing error, a single synthetic failed record
carrying that error; on success, one Pending record per returned name. -/
def fetchRepositories (listing : Except String (List String)) :
    List Repository :=
  match listing with
  | .error err =>
    [{ name := "Error fetching repos", status := .failed, error := some err,
       startTime := none, endTime := none }]
  | .ok repos => repos.map initRepository

/-- Go unicode.IsSpace over the Unicode White_Space set (the set trimmed by
strings.TrimSpace). -/
def goIsSpace (c : Char) : Bool :=
  (0x9 ≤ c.toNat && c.toNat ≤ 0xD) || c.toNat == 0x20 || c.toNat == 0x85 ||
  c.toNat == 0xA0 || c.toNat == 0x1680 ||
  (0x2000 ≤ c.toNat && c.toNat ≤ 0x200A) || c.toNat == 0x2028 ||
  c.toNat == 0x2029 || c.toNat == 0x202F || c.toNat == 0x205F ||
  c.toNat == 0x3000

/-- strings.TrimSpace: drop leading and trailing white space characters. -/
def goTrimSpace (s : String) : String :=
  ⟨((s.data.dropWhile goIsSpace).reverse.dropWhile goIsSpace).reverse⟩

/-- fetchReposInOrg (sync.go lines 699-715), with the external gh invocation
abstracted by its result (stdout on success, error on failure): wrap a command
error with context; trim the output; empty output yields the empty list,
otherwise split on newlines. -/
def fetchReposInOrg (org : String) (cmdResult : Except String String) :
    Except String (List String) :=
  match cmdResult with
  | .error e =>
    .error ("failed to fetch repos for org " ++ org ++ ": " ++ e)
  | .ok out =>
    let output := goTrimSpace out
    if output = "" then .ok []
    else .ok (output.splitOn "\n")

/-! ## Lemmas about the retry loop -/

theorem retryFrom_exec_le (env : RetryEnv) (a : Nat) (le : Option String) :
    (retryFrom env a le).2.1 ≤ env.retryAttempts + 1 - a := by
  rw [retryFrom]
  split
  · simp
  · split
    · simp
    · cases hexec : env.exec a with
      | none => simp; omega
      | some e =>
        simp only []
        split
        · simp; omega
        · have ih := retryFrom_exec_le env (a + 1) (some e)
          simp
          omega
termination_by env.retryAttempts + 1 - a
decreasing_by omega

theorem retryFrom_waits_eq (env : RetryEnv) (a : Nat) (le : Option String)
    (ha : 1 ≤ a) :
    (retryFrom env a le).2.2 = (retryFrom env a le).2.1 := by
  rw [retryFrom]
  split
  · simp
  · split
    · simp
    · have hwaits : (if a > 0 then (1 : Nat) else 0) = 1 := by
        simp [Nat.lt_of_lt_of_le Nat.zero_lt_one ha]
      cases hexec : env.exec a with
      | none => simp [hwaits]
      | some e =>
        simp only []
        split
        · simp [hwaits]
        · have ih := retryFrom_waits_eq env (a + 1) (some e) (by omega)
          simp [hwaits, ih]
termination_by env.retryAttempts + 1 - a
decreasing_by omega

theorem retryFrom_success (env : RetryEnv) (a k : Nat) (le : Option String)
    (hak : a ≤ k) (hkA : k ≤ env.retryAttempts)
    (hfail : ∀ i, a ≤ i → i < k →
      ∃ e, env.exec i = some e ∧ isNonRetryableError (some e) = false)
    (hsucc : env.exec k = none)
    (hnc : ∀ i, 1 ≤ i → a ≤ i → i ≤ k → env.cancelDuringWait i = false) :
    (retryFrom env a le).1 = none ∧ (retryFrom env a le).2.1 = k - a + 1 := by
  rw [retryFrom]
  have hnotgt : ¬ a > env.retryAttempts := by omega
  rw [dif_neg hnotgt]
  have hcancel : (decide (a > 0) && env.cancelDuringWait a) = false := by
    by_cases ha : a = 0
    · simp [ha]
    · simp [hnc a (by omega) (le_refl a) hak]
  rw [if_neg (by simp [hcancel])]
  by_cases hak2 : a = k
  · subst hak2
    simp [hsucc]
  · obtain ⟨e, he, hre⟩ := hfail a (le_refl a) (by omega)
    have ih := retryFrom_success env (a + 1) k (some e) (by omega) hkA
      (fun i h1 h2 => hfail i (by omega) h2)
      hsucc
      (fun i h1 h2 h3 => hnc i h1 (by omega) h3)
    simp only [he, hre]
    simp [ih.1, ih.2]
    omega
termination_by env.retryAttempts + 1 - a
decreasing_by omega

theorem retryFrom_allfail (env : RetryEnv) (a : Nat) (le : Option String)
    (ha : a ≤ env.retryAttempts)
    (hfail : ∀ i, a ≤ i → i ≤ env.retryAttempts →
      ∃ e, env.exec i = some e ∧ isNonRetryableError (some e) = false)
    (hnc : ∀ i, 1 ≤ i → a ≤ i → i ≤ env.retryAttempts →
      env.cancelDuringWait i = false) :
    (retryFrom env a le).1 = env.exec env.retryAttempts ∧
    (retryFrom env a le).2.1 = env.retryAttempts - a + 1 := by
  rw [retryFrom]
  have hnotgt : ¬ a > env.retryAttempts := by omega
  rw [dif_neg hnotgt]
  have hcancel : (decide (a > 0) && env.cancelDuringWait a) = false := by
    by_cases ha0 : a = 0
    · simp [ha0]
    · simp [hnc a (by omega) (le_refl a) ha]
  rw [if_neg (by simp [hcancel])]
  obtain ⟨e, he, hre⟩ := hfail a (le_refl a) ha
  by_cases haA : a = env.retryAttempts
  · subst haA
    simp only [he, hre]
    rw [retryFrom]
    simp [he]
  · have ih := retryFrom_allfail env (a + 1) (some e) (by omega)
      (fun i h1 h2 => hfail i (by omega) h2)
      (fun i h1 h2 h3 => hnc i h1 (by omega) h3)
    simp only [he, hre]
    simp [ih.1, ih.2]
    omega
termination_by env.retryAttempts + 1 - a
decreasing_by omega

theorem retryFrom_cancel (env : RetryEnv) (a k : Nat) (le : Option String)
    (hk1 : 1 ≤ k) (hak : a ≤ k) (hkA : k ≤ env.retryAttempts)
    (hfail : ∀ i, a ≤ i → i < k →
      ∃ e, env.exec i = some e ∧ isNonRetryableError (some e) = false)
    (hnc : ∀ i, 1 ≤ i → a ≤ i → i < k → env.cancelDuringWait i = false)
    (hck : env.cancelDuringWait k = true) :
    (retryFrom env a le).1 = some ctxCanceled ∧
    (retryFrom env a le).2.1 = k - a := by
  rw [retryFrom]
  have hnotgt : ¬ a > env.retryAttempts := by omega
  rw [dif_neg hnotgt]
  by_cases hak2 : a = k
  · subst hak2
    rw [if_pos (by simp [hck]; omega)]
    simp
  · have hcancel : (decide (a > 0) && env.cancelDuringWait a) = false := by
      by_cases ha0 : a = 0
      · simp [ha0]
      · simp [hnc a (by omega) (le_refl a) (by omega)]
    rw [if_neg (by simp [hcancel])]
    obtain ⟨e, he, hre⟩ := hfail a (le_refl a) (by omega)
    have ih := retryFrom_cancel env (a + 1) k (some e) hk1 (by omega) hkA
      (fun i h1 h2 => hfail i (by omega) h2)
      (fun i h1 h2 h3 => hnc i h1 (by omega) h3)
      hck
    simp only [he, hre]
    simp [ih.1, ih.2]
    omega
termination_by env.retryAttempts + 1 - a
decreasing_by omega

theorem syncRepoWithRetry_shape (env : RetryEnv) :
    (syncRepoWithRetry env).2.2 + 1 = (syncRepoWithRetry env).2.1 ∧
    1 ≤ (syncRepoWithRetry env).2.1 := by
  unfold syncRepoWithRetry
  rw [retryFrom]
  have hnotgt : ¬ 0 > env.retryAttempts := by omega
  rw [dif_neg hnotgt]
  rw [if_neg (by simp)]
  cases hexec : env.exec 0 with
  | none => simp
  | some e =>
    simp only []
    split
    · simp
    · have hw := retryFrom_waits_eq env 1 (some e) (le_refl 1)
      simp [hw]

/-! ## Claims C4, C5, C6: the Retry Policy -/

/-- Claim C4: an error whose message indicates authentication failure,
permission denial, or not-found semantics is classified non-retryable by
isNonRetryableError, and with a Sync Executor that always returns an error
whose message contains "authentication", syncRepoWithRetry makes exactly one
attempt (no retries, no waits) and returns that error. -/
theorem c4_nonretryable_stops_after_one_attempt :
    (∀ msg : String,
      goContains msg "authentication" = true ∨
      goContains msg "permission denied" = true ∨
      goContains msg "not found" = true →
      isNonRetryableError (some msg) = true) ∧
    (∀ env : RetryEnv, ∀ msg : String,
      (∀ k, env.exec k = some msg) →
      goContains msg "authentication" = true →
      syncRepoWithRetry env = (some msg, 1, 0)) := by
  constructor
  · intro msg h
    unfold isNonRetryableError
    rcases h with h | h | h <;> simp [h]
  · intro env msg hexec hauth
    have hnr : isNonRetryableError (some msg) = true := by
      unfold isNonRetryableError
      simp [hauth]
    unfold syncRepoWithRetry
    rw [retryFrom]
    rw [dif_neg (by omega)]
    rw [if_neg (by simp)]
    simp [hexec 0, hnr]

/-- Witness for C4 at a concrete executor that always fails with
"authentication failed". -/
theorem c4_witness :
    isNonRetryableError (some "authentication failed") = true ∧
    syncRepoWithRetry
        ⟨2, fun _ => some "authentication failed", fun _ => false⟩ =
      (some "authentication failed", 1, 0) :=
  ⟨c4_nonretryable_stops_after_one_attempt.1 "authentication failed"
      (Or.inl (by decide)),
   c4_nonretryable_stops_after_one_attempt.2
      ⟨2, fun _ => some "authentication failed", fun _ => false⟩
      "authentication failed" (fun _ => rfl) (by decide)⟩

/-- Claim C5: the Retry Policy invokes the Sync Executor at most
retryAttempts + 1 times; it returns success as soon as an attempt succeeds
(k failed retryable attempts followed by a success give exactly k + 1
invocations and a nil result); and when every attempt fails with a retryable
error it returns the last error encountered after retryAttempts + 1
invocations. -/
theorem c5_retry_budget_and_results (env : RetryEnv) :
    (syncRepoWithRetry env).2.1 ≤ env.retryAttempts + 1 ∧
    (∀ k, k ≤ env.retryAttempts → env.exec k = none →
      (∀ i, i < k →
        ∃ e, env.exec i = some e ∧ isNonRetryableError (some e) = false) →
      (∀ i, 1 ≤ i → i ≤ k → env.cancelDuringWait i = false) →
      (syncRepoWithRetry env).1 = none ∧
      (syncRepoWithRetry env).2.1 = k + 1) ∧
    (∀ e, env.exec env.retryAttempts = some e →
      (∀ i, i ≤ env.retryAttempts →
        ∃ x, env.exec i = some x ∧ isNonRetryableError (some x) = false) →
      (∀ i, 1 ≤ i → i ≤ env.retryAttempts → env.cancelDuringWait i = false) →
      (syncRepoWithRetry env).1 = some e ∧
      (syncRepoWithRetry env).2.1 = env.retryAttempts + 1) := by
  refine ⟨?_, ?_, ?_⟩
  · have h := retryFrom_exec_le env 0 none
    unfold syncRepoWithRetry
    omega
  · intro k hk hsucc hfail hnc
    have h := retryFrom_success env 0 k none (Nat.zero_le k) hk
      (fun i _ h2 => hfail i h2) hsucc
      (fun i h1 _ h3 => hnc i h1 h3)
    unfold syncRepoWithRetry
    refine ⟨h.1, ?_⟩
    rw [h.2]
    omega
  · intro e hlast hfail hnc
    have h := retryFrom_allfail env 0 none (Nat.zero_le _)
      (fun i _ h2 => hfail i h2)
      (fun i h1 _ h3 => hnc i h1 h3)
    unfold syncRepoWithRetry
    refine ⟨?_, ?_⟩
    · rw [h.1, hlast]
    · rw [h.2]
      omega

/-- Witness for C5: retryAttempts = 2 with an executor that fails twice with a
retryable error and then succeeds gives success after exactly 3 attempts. -/
theorem c5_witness :
    (syncRepoWithRetry
        ⟨2, fun k => if k < 2 then some "network timeout" else none,
         fun _ => false⟩).1 = none ∧
    (syncRepoWithRetry
        ⟨2, fun k => if k < 2 then some "network timeout" else none,
         fun _ => false⟩).2.1 = 3 :=
  (c5_retry_budget_and_results
      ⟨2, fun k => if k < 2 then some "network timeout" else none,
       fun _ => false⟩).2.1 2 (by decide) rfl
    (fun i hi => ⟨"network timeout", by simp [hi], by decide⟩)
    (fun _ _ _ => rfl)

/-- Claim C6: the Retry Policy waits retryDelay only between attempts, never
before the first one (the number of completed waits is always one less than
the number of attempts), and when the cancellation signal fires during the
wait preceding attempt k it returns the cancellation error at once, having
invoked the Sync Executor only k times (attempts 0..k-1) with k - 1 waits. -/
theorem c6_wait_between_attempts_and_cancellation (env : RetryEnv) :
    ((syncRepoWithRetry env).2.2 + 1 = (syncRepoWithRetry env).2.1) ∧
    (∀ k, 1 ≤ k → k ≤ env.retryAttempts →
      (∀ i, i < k →
        ∃ e, env.exec i = some e ∧ isNonRetryableError (some e) = false) →
      (∀ i, 1 ≤ i → i < k → env.cancelDuringWait i = false) →
      env.cancelDuringWait k = true →
      syncRepoWithRetry env = (some ctxCanceled, k, k - 1)) := by
  refine ⟨(syncRepoWithRetry_shape env).1, ?_⟩
  intro k hk1 hkA hfail hnc hck
  have h := retryFrom_cancel env 0 k none hk1 (Nat.zero_le k) hkA
    (fun i _ h2 => hfail i h2)
    (fun i h1 _ h3 => hnc i h1 h3)
    hck
  have hshape := (syncRepoWithRetry_shape env).1
  unfold syncRepoWithRetry at *
  have heta : retryFrom env 0 none =
      ((retryFrom env 0 none).1,
       (retryFrom env 0 none).2.1, (retryFrom env 0 none).2.2) := rfl
  rw [heta, h.1]
  have h2 : (retryFrom env 0 none).2.1 = k := by
    rw [h.2]; omega
  rw [h2]
  have h3 : (retryFrom env 0 none).2.2 = k - 1 := by omega
  rw [h3]

/-- Witness for C6: cancellation fires during the wait before attempt 1; the
policy returns the cancellation error after one attempt and zero completed
waits. -/
theorem c6_witness :
    syncRepoWithRetry
        ⟨2, fun _ => some "network timeout", fun k => k == 1⟩ =
      (some ctxCanceled, 1, 0) :=
  (c6_wait_between_attempts_and_cancellation
      ⟨2, fun _ => some "network timeout", fun k => k == 1⟩).2
    1 (le_refl 1) (by decide)
    (fun i _ => ⟨"network timeout", rfl, by decide⟩)
    (fun i h1 h2 => by omega)
    rfl

/-! ## Claim C2: the settled-count equation -/

theorem settled_count_split (repos : List Repository)
    (h : ∀ r ∈ repos, (r.status == RepositoryStatus.completed ||
      r.status == RepositoryStatus.failed) = true) :
    summaryCompleted repos + countFailed repos = repos.length := by
  induction repos with
  | nil => rfl
  | cons r rs ih =>
    have hr := h r (by simp)
    have hrs := ih (fun x hx => h x (by simp [hx]))
    unfold summaryCompleted countFailed at *
    rw [List.countP_cons, List.countP_cons, List.length_cons]
    rcases Bool.or_eq_true_iff.1 hr with h1 | h1 <;>
      rw [beq_iff_eq] at h1 <;> rw [h1] <;> simp <;> omega

/-- Claim C2 as stated is false on the code: countCompleted (sync.go lines
534-542) counts records in StatusCompleted or StatusFailed, so once isDone()
holds, countCompleted() + countFailed() exceeds the total by the number of
failed records. Concretely, for a single failed record the claimed equation
reads 2 = 1. -/
theorem c2_counterexample :
    isDone [{ name := "b", status := RepositoryStatus.failed,
              error := some "repository not found",
              startTime := some 0, endTime := some 1 }] = true ∧
    countCompleted [{ name := "b", status := RepositoryStatus.failed,
                      error := some "repository not found",
                      startTime := some 0, endTime := some 1 }] +
      countFailed [{ name := "b", status := RepositoryStatus.failed,
                     error := some "repository not found",
                     startTime := some 0, endTime := some 1 }] ≠
    ([{ name := "b", status := RepositoryStatus.failed,
        error := some "repository not found",
        startTime := some 0, endTime := some 1 }] :
      List Repository).length := by
  constructor <;> decide

/-- Claim C2 (amended): whenever isDone() is true, countCompleted() alone
already equals the total (it counts both terminal states), and the equation of
the claim holds with the summary's completed counter (which counts only
StatusCompleted records): summaryCompleted() + countFailed() == total. -/
theorem c2_amended_settled_counts (repos : List Repository)
    (h : isDone repos = true) :
    countCompleted repos = repos.length ∧
    summaryCompleted repos + countFailed repos = repos.length := by
  have hlen : countCompleted repos = repos.length := by
    have := h
    unfold isDone at this
    exact beq_iff_eq.mp this
  refine ⟨hlen, settled_count_split repos ?_⟩
  have hlen2 : repos.countP (fun r => r.status == RepositoryStatus.completed ||
      r.status == RepositoryStatus.failed) = repos.length := hlen
  exact List.countP_eq_length.1 hlen2

/-- Witness for the amended C2 at a one-element settled collection. -/
theorem c2_amended_witness :
    countCompleted [{ name := "a", status := RepositoryStatus.completed,
                      error := none, startTime := some 0, endTime := some 1 }] =
      ([{ name := "a", status := RepositoryStatus.completed,
          error := none, startTime := some 0, endTime := some 1 }] :
        List Repository).length ∧
    summaryCompleted [{ name := "a", status := RepositoryStatus.completed,
                        error := none, startTime := some 0, endTime := some 1 }] +
      countFailed [{ name := "a", status := RepositoryStatus.completed,
                     error := none, startTime := some 0, endTime := some 1 }] =
      ([{ name := "a", status := RepositoryStatus.completed,
          error := none, startTime := some 0, endTime := some 1 }] :
        List Repository).length :=
  c2_amended_settled_counts
    [{ name := "a", status := RepositoryStatus.completed,
       error := none, startTime := some 0, endTime := some 1 }] (by decide)

/-! ## Claim C8: listing failure yields one synthetic failed record -/

/-- Claim C8: when the repository-listing capability fails, fetchRepositories
returns exactly one synthetic record named "Error fetching repos" whose status
is Failed and whose error is the listing error; on that collection the
run-completion condition of the display loop (countCompleted == total, i.e.
isDone) already holds, so the loop still terminates. -/
theorem c8_listing_failure_single_synthetic_record (err : String) :
    fetchRepositories (Except.error err) =
      [{ name := "Error fetching repos", status := RepositoryStatus.failed,
         error := some err, startTime := none, endTime := none }] ∧
    (fetchRepositories (Except.error err)).length = 1 ∧
    isDone (fetchRepositories (Except.error err)) = true :=
  ⟨rfl, rfl, rfl⟩

/-! ## Claim C10: empty listing output -/

/-- Claim C10: when the external listing command succeeds with output that is
empty or entirely white space, fetchReposInOrg returns the empty list of
names (not a one-element list holding the empty string), so an organization
with zero repositories yields zero repository records. -/
theorem c10_empty_output_yields_no_repos (org out : String)
    (hsp : ∀ c ∈ out.data, goIsSpace c = true) :
    fetchReposInOrg org (Except.ok out) = Except.ok [] ∧
    fetchReposInOrg org (Except.ok out) ≠ Except.ok [""] ∧
    fetchRepositories (Except.ok ([] : List String)) = [] := by
  have htrim : goTrimSpace out = "" := by
    unfold goTrimSpace
    have h1 : out.data.dropWhile goIsSpace = [] :=
      List.dropWhile_eq_nil_iff.mpr hsp
    rw [h1]
    rfl
  have hmain : fetchReposInOrg org (Except.ok out) = Except.ok [] := by
    unfold fetchReposInOrg
    simp [htrim]
  refine ⟨hmain, ?_, rfl⟩
  rw [hmain]
  intro hcontra
  simp at hcontra

/-- Witness for C10 at the white-space-only output " \n". -/
theorem c10_witness :
    (∀ c ∈ (" \n" : String).data, goIsSpace c = true) ∧
    fetchReposInOrg "acme" (Except.ok " \n") = Except.ok [] :=
  ⟨by decide,
   (c10_empty_output_yields_no_repos "acme" " \n" (by decide)).1⟩

/-! ## Claim C3: the bounded worker pool of syncRepositories

syncRepositories (sync.go lines 596-656) launches one goroutine per
repository. Each goroutine first blocks on the admission select (send on the
buffered semaphore channel of capacity MaxConcurrency, or ctx.Done), and on
admission defers the release of its slot, so the slot is given back whenever
the goroutine returns — on the success path and on every error path alike.
The phases of one worker goroutine: -/

/-- Phase of a worker goroutine of syncRepositories: waiting at the semaphore
acquire (sync.go lines 608-613), active while holding a slot (the region
between `semaphore <- struct\x7b\x7d\x7b\x7d` and the deferred release, which
spans the Cloning/Fetching work), or finished (returned; the deferred release
has run, or the worker aborted at the acquire select without ever holding a
slot). -/
inductive WorkerPhase where
  | waiting
  | active
  | finished
deriving DecidableEq, Repr

/-- Number of workers currently admitted past the semaphore. -/
def countActive (ws : List WorkerPhase) : Nat :=
  ws.countP (fun w => w == WorkerPhase.active)

/-- Transitions of the worker pool of syncRepositories with semaphore capacity
maxConcurrency: a waiting worker is admitted only when a slot is free (the
buffered channel send succeeds only while fewer than maxConcurrency slots are
held); a waiting worker may abort via the ctx.Done branch without taking a
slot; an active worker finishes (its deferred release returns the slot) on
success and error paths alike. -/
inductive PoolStep (maxConcurrency : Nat) :
    List WorkerPhase → List WorkerPhase → Prop where
  | acquire (ws : List WorkerPhase) (i : Nat)
      (hw : ws[i]? = some WorkerPhase.waiting)
      (hroom : countActive ws < maxConcurrency) :
      PoolStep maxConcurrency ws (ws.set i WorkerPhase.active)
  | abandon (ws : List WorkerPhase) (i : Nat)
      (hw : ws[i]? = some WorkerPhase.waiting) :
      PoolStep maxConcurrency ws (ws.set i WorkerPhase.finished)
  | finish (ws : List WorkerPhase) (i : Nat)
      (hw : ws[i]? = some WorkerPhase.active) :
      PoolStep maxConcurrency ws (ws.set i WorkerPhase.finished)

/-- Pool states reachable from the launch state of a run over k repositories:
every worker starts out waiting at the semaphore. -/
def PoolReachable (maxConcurrency k : Nat) (ws : List WorkerPhase) : Prop :=
  Relation.ReflTransGen (PoolStep maxConcurrency)
    (List.replicate k WorkerPhase.waiting) ws

theorem countP_set {α : Type} (p : α → Bool) (a : α) :
    ∀ (l : List α) (i : Nat) (x : α), l[i]? = some x →
      (l.set i a).countP p + (if p x then 1 else 0) =
        l.countP p + (if p a then 1 else 0) := by
  intro l
  induction l with
  | nil => intro i x hx; simp at hx
  | cons y ys ih =>
    intro i x hx
    cases i with
    | zero =>
      simp at hx
      subst hx
      simp [List.countP_cons]
      omega
    | succ j =>
      simp at hx
      have := ih j x hx
      simp [List.countP_cons]
      omega

theorem countActive_replicate (k : Nat) :
    countActive (List.replicate k WorkerPhase.waiting) = 0 := by
  induction k with
  | zero => rfl
  | succ n ih =>
    unfold countActive at *
    rw [List.replicate_succ, List.countP_cons]
    simp [ih]

theorem poolStep_preserves (maxConcurrency : Nat)
    (ws ws2 : List WorkerPhase) (h : PoolStep maxConcurrency ws ws2)
    (hb : countActive ws ≤ maxConcurrency) :
    countActive ws2 ≤ maxConcurrency := by
  cases h with
  | acquire i hw hroom =>
    have := countP_set (fun w => w == WorkerPhase.active) WorkerPhase.active
      ws i WorkerPhase.waiting hw
    unfold countActive at *
    simp at this
    omega
  | abandon i hw =>
    have := countP_set (fun w => w == WorkerPhase.active) WorkerPhase.finished
      ws i WorkerPhase.waiting hw
    unfold countActive at *
    simp at this
    omega
  | finish i hw =>
    have := countP_set (fun w => w == WorkerPhase.active) WorkerPhase.finished
      ws i WorkerPhase.active hw
    unfold countActive at *
    simp at this
    omega

/-- Claim C3: in every pool state reachable in a run over k repositories with
semaphore capacity maxConcurrency, at most maxConcurrency workers are active
(admitted past the semaphore, i.e. in their Cloning/Fetching region) at any
instant; the transition system already builds in that a slot is released
exactly when a worker finishes, on error paths included. -/
theorem c3_bounded_concurrency (maxConcurrency k : Nat)
    (ws : List WorkerPhase) (h : PoolReachable maxConcurrency k ws) :
    countActive ws ≤ maxConcurrency := by
  unfold PoolReachable at h
  induction h with
  | refl => rw [countActive_replicate]; omega
  | tail hsteps hstep ih => exact poolStep_preserves _ _ _ hstep ih

/-- Witness for C3: with capacity 2 and one repository, the state after the
single worker is admitted is reachable and within the bound. -/
theorem c3_witness :
    PoolReachable 2 1 [WorkerPhase.active] ∧
    countActive [WorkerPhase.active] ≤ 2 := by
  have hstep : PoolStep 2 (List.replicate 1 WorkerPhase.waiting)
      ((List.replicate 1 WorkerPhase.waiting).set 0 WorkerPhase.active) :=
    PoolStep.acquire (List.replicate 1 WorkerPhase.waiting) 0 rfl (by decide)
  have hreach : PoolReachable 2 1 [WorkerPhase.active] :=
    Relation.ReflTransGen.single hstep
  exact ⟨hreach, c3_bounded_concurrency 2 1 [WorkerPhase.active] hreach⟩

/-! ## A small-step model of one worker goroutine of syncRepositories

The body of the goroutine launched per repository (sync.go lines 604-644),
with the retry loop of syncRepoWithRetry (lines 658-684) inlined. Go select
statements over several ready cases choose nondeterministically, so each
ready branch is a separate transition; in particular the two channel sends go
through a buffered channel and therefore stay ready after cancellation. -/

/-- Control point of a worker goroutine: blocked at the semaphore-acquire
select (sync.go lines 608-613); at the initial-status send select (lines
616-624); about to invoke syncRepo for the given attempt (line 670); inside
the retryDelay select preceding the given attempt (lines 663-667); at the
final-status send select (lines 635-643) carrying the result of
syncRepoWithRetry; or returned. -/
inductive WorkerPC where
  | atAcquire
  | atEmitInitial
  | atExec (attempt : Nat)
  | atWait (attempt : Nat)
  | atEmitFinal (err : Option String)
  | done
deriving DecidableEq, Repr

/-- Configuration of one worker: whether the run-level context has been
cancelled, the worker's control point, and the status updates it has sent on
the status channel so far (status and error of each). -/
structure WorkerConfig where
  cancelled : Bool
  pc : WorkerPC
  emitted : List (RepositoryStatus × Option String)
deriving DecidableEq, Repr

/-- Environment of one worker: the configured retry budget, whether a local
copy of its repository exists, and the outcomes of the external fetch/clone
operations on each attempt. -/
structure WorkerEnv where
  retryAttempts : Nat
  localExists : Bool
  fetchOutcome : Nat → Option String
  cloneOutcome : Nat → Option String

/-- Outcome of the k-th syncRepo invocation (sync.go lines 686-696): fetch
when a local copy exists, clone otherwise. -/
def execOutcome (env : WorkerEnv) (k : Nat) : Option String :=
  syncRepo env.localExists (env.fetchOutcome k) (env.cloneOutcome k)

/-- The final status computed by the worker (sync.go lines 629-632):
StatusCompleted on a nil error, StatusFailed otherwise. -/
def finalStatusOf : Option String → RepositoryStatus
  | none => RepositoryStatus.completed
  | some _ => RepositoryStatus.failed

/-- Transitions of one worker goroutine. cancel models the user quit firing
the run-level context at any moment. At the acquire and send selects the
non-cancellation branch stays available after cancellation (semaphore slot
free, channel buffered), so both branches are present for a cancelled worker;
the initial-status send always carries StatusCloning (sync.go lines 616-621).
In the retry loop a nil outcome reports success, a non-retryable error or an
exhausted budget stops with that error, a retryable error moves to the wait
preceding the next attempt, and cancellation during the wait makes
syncRepoWithRetry return ctx.Err(), which the worker then reports as a
Failed final status. -/
inductive WorkerStep (env : WorkerEnv) : WorkerConfig → WorkerConfig → Prop where
  | cancel (pc : WorkerPC) (em : List (RepositoryStatus × Option String)) :
      WorkerStep env ⟨false, pc, em⟩ ⟨true, pc, em⟩
  | acquire (canc : Bool) (em : List (RepositoryStatus × Option String)) :
      WorkerStep env ⟨canc, .atAcquire, em⟩ ⟨canc, .atEmitInitial, em⟩
  | acquireAbort (em : List (RepositoryStatus × Option String)) :
      WorkerStep env ⟨true, .atAcquire, em⟩ ⟨true, .done, em⟩
  | emitInitial (canc : Bool) (em : List (RepositoryStatus × Option String)) :
      WorkerStep env ⟨canc, .atEmitInitial, em⟩
        ⟨canc, .atExec 0, em ++ [(RepositoryStatus.cloning, none)]⟩
  | emitInitialAbort (em : List (RepositoryStatus × Option String)) :
      WorkerStep env ⟨true, .atEmitInitial, em⟩ ⟨true, .done, em⟩
  | execSuccess (canc : Bool) (em : List (RepositoryStatus × Option String))
      (k : Nat) (h : execOutcome env k = none) :
      WorkerStep env ⟨canc, .atExec k, em⟩ ⟨canc, .atEmitFinal none, em⟩
  | execFailStop (canc : Bool) (em : List (RepositoryStatus × Option String))
      (k : Nat) (e : String) (h : execOutcome env k = some e)
      (hstop : isNonRetryableError (some e) = true ∨ env.retryAttempts ≤ k) :
      WorkerStep env ⟨canc, .atExec k, em⟩ ⟨canc, .atEmitFinal (some e), em⟩
  | execFailRetry (canc : Bool) (em : List (RepositoryStatus × Option String))
      (k : Nat) (e : String) (h : execOutcome env k = some e)
      (hre : isNonRetryableError (some e) = false) (hk : k < env.retryAttempts) :
      WorkerStep env ⟨canc, .atExec k, em⟩ ⟨canc, .atWait (k + 1), em⟩
  | waitElapsed (canc : Bool) (em : List (RepositoryStatus × Option String))
      (k : Nat) :
      WorkerStep env ⟨canc, .atWait k, em⟩ ⟨canc, .atExec k, em⟩
  | waitCancelled (em : List (RepositoryStatus × Option String)) (k : Nat) :
      WorkerStep env ⟨true, .atWait k, em⟩
        ⟨true, .atEmitFinal (some ctxCanceled), em⟩
  | emitFinal (canc : Bool) (em : List (RepositoryStatus × Option String))
      (e : Option String) :
      WorkerStep env ⟨canc, .atEmitFinal e, em⟩
        ⟨canc, .done, em ++ [(finalStatusOf e, e)]⟩
  | emitFinalAbort (em : List (RepositoryStatus × Option String))
      (e : Option String) :
      WorkerStep env ⟨true, .atEmitFinal e, em⟩ ⟨true, .done, em⟩

/-- Executions of one worker. -/
def WorkerReach (env : WorkerEnv) : WorkerConfig → WorkerConfig → Prop :=
  Relation.ReflTransGen (WorkerStep env)

/-- Shape of the update sequence a worker can have emitted at each control
point: nothing before the initial send, exactly the Cloning update while
working, and at most one terminal update after it. -/
def WorkerInv (c : WorkerConfig) : Prop :=
  match c.pc with
  | .atAcquire => c.emitted = []
  | .atEmitInitial => c.emitted = []
  | .atExec _ => c.emitted = [(RepositoryStatus.cloning, none)]
  | .atWait _ => c.emitted = [(RepositoryStatus.cloning, none)]
  | .atEmitFinal _ => c.emitted = [(RepositoryStatus.cloning, none)]
  | .done =>
    c.emitted = [] ∨ c.emitted = [(RepositoryStatus.cloning, none)] ∨
    ∃ e, c.emitted = [(RepositoryStatus.cloning, none), (finalStatusOf e, e)]

theorem workerStep_inv (env : WorkerEnv) {c c2 : WorkerConfig}
    (h : WorkerStep env c c2) (hinv : WorkerInv c) : WorkerInv c2 := by
  cases h with
  | cancel pc em => exact hinv
  | acquire canc em => exact hinv
  | acquireAbort em => exact Or.inl hinv
  | emitInitial canc em =>
    have he : em = [] := hinv
    show em ++ [(RepositoryStatus.cloning, none)] =
      [(RepositoryStatus.cloning, none)]
    rw [he]
    rfl
  | emitInitialAbort em => exact Or.inl hinv
  | execSuccess canc em k h => exact hinv
  | execFailStop canc em k e h hstop => exact hinv
  | execFailRetry canc em k e h hre hk => exact hinv
  | waitElapsed canc em k => exact hinv
  | waitCancelled em k => exact hinv
  | emitFinal canc em e =>
    have he : em = [(RepositoryStatus.cloning, none)] := hinv
    refine Or.inr (Or.inr ⟨e, ?_⟩)
    rw [he]
    rfl
  | emitFinalAbort em e => exact Or.inr (Or.inl hinv)

/-- Every configuration reachable from the launch configuration satisfies the
emitted-shape invariant. -/
theorem worker_reachable_inv (env : WorkerEnv) (c : WorkerConfig)
    (h : WorkerReach env ⟨false, .atAcquire, []⟩ c) : WorkerInv c := by
  unfold WorkerReach at h
  induction h with
  | refl => exact rfl
  | tail hsteps hstep ih => exact workerStep_inv env hstep ih

/-! ## Claim C1: the initial status update -/

/-- Claim C1 as stated is false on the code: syncRepositories sends
StatusCloning as the initial status unconditionally (sync.go lines 616-621,
"Send cloning status first"), even when the local copy already exists. In the
worker model, with localExists = true and a fetch that succeeds, the full run
emits Cloning and then Completed — the initial update is Cloning, not
Fetching, so on a fully-cloned second run a record transitions
Pending→Cloning→Completed. -/
theorem c1_counterexample :
    ∃ env : WorkerEnv, env.localExists = true ∧
      WorkerReach env ⟨false, .atAcquire, []⟩
        ⟨false, .done, [(RepositoryStatus.cloning, none),
                        (RepositoryStatus.completed, none)]⟩ ∧
      ([(RepositoryStatus.cloning, (none : Option String)),
        (RepositoryStatus.completed, none)].head? =
          some (RepositoryStatus.cloning, none) ∧
       RepositoryStatus.cloning ≠ RepositoryStatus.fetching) := by
  refine ⟨⟨2, true, fun _ => none, fun _ => none⟩, rfl, ?_, rfl, by decide⟩
  exact Relation.ReflTransGen.head (WorkerStep.acquire false [])
    (Relation.ReflTransGen.head (WorkerStep.emitInitial false [])
      (Relation.ReflTransGen.head
        (WorkerStep.execSuccess false [(RepositoryStatus.cloning, none)] 0 rfl)
        (Relation.ReflTransGen.single
          (WorkerStep.emitFinal false [(RepositoryStatus.cloning, none)] none))))

/-- Claim C1 (amended): the initial status update emitted by the Coordinator
before calling the Retry Policy is always Cloning, regardless of whether a
local copy exists (the fetch-vs-clone decision is made inside syncRepo and is
not reflected in the emitted status); hence in every worker execution — in
particular over already-cloned repositories — the first emitted update is
Cloning and a Fetching update is never emitted, so records transition
Pending→Cloning→Completed/Failed and never enter Fetching. -/
theorem c1_amended_initial_status_always_cloning (env : WorkerEnv)
    (c : WorkerConfig) (h : WorkerReach env ⟨false, .atAcquire, []⟩ c) :
    (c.emitted = [] ∨
      c.emitted.head? = some (RepositoryStatus.cloning, none)) ∧
    (c.emitted.map Prod.fst).contains RepositoryStatus.fetching = false := by
  have hinv := worker_reachable_inv env c h
  rcases c with ⟨canc, pc, em⟩
  have hsh : em = [] ∨ em = [(RepositoryStatus.cloning, none)] ∨
      ∃ e, em = [(RepositoryStatus.cloning, none), (finalStatusOf e, e)] := by
    cases pc with
    | atAcquire => exact Or.inl hinv
    | atEmitInitial => exact Or.inl hinv
    | atExec k => exact Or.inr (Or.inl hinv)
    | atWait k => exact Or.inr (Or.inl hinv)
    | atEmitFinal e => exact Or.inr (Or.inl hinv)
    | done => exact hinv
  rcases hsh with h1 | h1 | ⟨e, h1⟩ <;> subst h1
  · exact ⟨Or.inl rfl, rfl⟩
  · exact ⟨Or.inr rfl, rfl⟩
  · refine ⟨Or.inr rfl, ?_⟩
    cases e with
    | none => rfl
    | some s => rfl

/-- Witness for the amended C1 on a complete successful execution over an
already-cloned repository. -/
theorem c1_amended_witness :
    ([(RepositoryStatus.cloning, (none : Option String)),
      (RepositoryStatus.completed, none)] = [] ∨
     [(RepositoryStatus.cloning, (none : Option String)),
      (RepositoryStatus.completed, none)].head? =
       some (RepositoryStatus.cloning, none)) ∧
    ([(RepositoryStatus.cloning, (none : Option String)),
      (RepositoryStatus.completed, none)].map Prod.fst).contains
        RepositoryStatus.fetching = false := by
  have hreach : WorkerReach ⟨2, true, fun _ => none, fun _ => none⟩
      ⟨false, .atAcquire, []⟩
      ⟨false, .done, [(RepositoryStatus.cloning, none),
                      (RepositoryStatus.completed, none)]⟩ :=
    Relation.ReflTransGen.head (WorkerStep.acquire false [])
      (Relation.ReflTransGen.head (WorkerStep.emitInitial false [])
        (Relation.ReflTransGen.head
          (WorkerStep.execSuccess false [(RepositoryStatus.cloning, none)] 0 rfl)
          (Relation.ReflTransGen.single
            (WorkerStep.emitFinal false [(RepositoryStatus.cloning, none)] none))))
  exact c1_amended_initial_status_always_cloning
    ⟨2, true, fun _ => none, fun _ => none⟩
    ⟨false, .done, [(RepositoryStatus.cloning, none),
                    (RepositoryStatus.completed, none)]⟩ hreach

/-! ## Claim C7: updates after cancellation -/

/-- Claim C7 as stated is false on the code: after the run-level context is
cancelled, a worker blocked in the retryDelay select gets ctx.Err() back from
syncRepoWithRetry (sync.go lines 663-667), computes StatusFailed (lines
629-632), and its final-status select (lines 635-643) may take the buffered
channel send rather than the ctx.Done branch — Go select chooses among ready
cases — so a further update is emitted after cancellation and the unsettled
repository (last observed state Cloning) is force-marked Failed with the
cancellation error. The model exhibits such an execution: the middle
configuration is cancelled with the repository unsettled, and from it the
worker emits (Failed, context canceled). -/
theorem c7_counterexample :
    ∃ env : WorkerEnv,
      WorkerReach env ⟨false, .atAcquire, []⟩
        ⟨true, .atWait 1, [(RepositoryStatus.cloning, none)]⟩ ∧
      WorkerReach env ⟨true, .atWait 1, [(RepositoryStatus.cloning, none)]⟩
        ⟨true, .done, [(RepositoryStatus.cloning, none),
                       (RepositoryStatus.failed, some ctxCanceled)]⟩ := by
  refine ⟨⟨2, true, fun _ => some "network timeout",
           fun _ => some "network timeout"⟩, ?_, ?_⟩
  · exact Relation.ReflTransGen.head (WorkerStep.acquire false [])
      (Relation.ReflTransGen.head (WorkerStep.emitInitial false [])
        (Relation.ReflTransGen.head
          (WorkerStep.execFailRetry false [(RepositoryStatus.cloning, none)] 0
            "network timeout" rfl (by decide) (by decide))
          (Relation.ReflTransGen.single
            (WorkerStep.cancel (.atWait 1) [(RepositoryStatus.cloning, none)]))))
  · exact Relation.ReflTransGen.head
      (WorkerStep.waitCancelled [(RepositoryStatus.cloning, none)] 1)
      (Relation.ReflTransGen.single
        (WorkerStep.emitFinal true [(RepositoryStatus.cloning, none)]
          (some ctxCanceled)))

/-- Claim C7 (amended): a worker that has abandoned (returned through a
ctx.Done branch, or finished) emits no further status updates, so the
aggregator-visible record of such a repository stays in its last observed
state; however a cancelled worker still blocked at a select may take the
non-cancellation branch, so an in-flight repository can still receive its
terminal update — including a Failed update carrying the cancellation error
when the context fired during a retry wait. -/
theorem c7_amended_abandoned_emit_nothing (env : WorkerEnv)
    (c c2 : WorkerConfig) (hpc : c.pc = .done)
    (h : WorkerReach env c c2) :
    c2.emitted = c.emitted ∧ c2.pc = .done := by
  unfold WorkerReach at h
  induction h with
  | refl => exact ⟨rfl, hpc⟩
  | tail hsteps hstep ih => cases hstep <;> simp_all

/-- Witness for the amended C7 at an abandoned worker configuration. -/
theorem c7_amended_witness :
    ({ cancelled := true, pc := WorkerPC.done, emitted := [] } :
        WorkerConfig).emitted =
      ({ cancelled := true, pc := WorkerPC.done, emitted := [] } :
        WorkerConfig).emitted ∧
    ({ cancelled := true, pc := WorkerPC.done, emitted := [] } :
        WorkerConfig).pc = WorkerPC.done :=
  c7_amended_abandoned_emit_nothing
    ⟨2, true, fun _ => none, fun _ => none⟩
    { cancelled := true, pc := WorkerPC.done, emitted := [] }
    { cancelled := true, pc := WorkerPC.done, emitted := [] }
    rfl Relation.ReflTransGen.refl

/-! ## Claim C9: timestamp discipline of the Status Aggregator

A status update as consumed by the aggregator (repositoryStatusMsg, sync.go
lines 425-429), together with the clock reading at which the aggregator
applies it (time.Now() inside updateRepositoryStatus); since messages are
applied sequentially by a single consumer, the stamping clock readings are
non-decreasing along the update sequence. -/

/-- One repositoryStatusMsg with the clock value the aggregator stamps with
when applying it. -/
structure StatusUpdate where
  name : String
  status : RepositoryStatus
  error : Option String
  time : Nat
deriving DecidableEq, Repr

/-- Sequential application of a stream of status updates by the aggregator. -/
def applyUpdates (repos : List Repository) :
    List StatusUpdate → List Repository
  | [] => repos
  | u :: us =>
    applyUpdates (updateRepositoryStatus repos u.name u.status u.error u.time) us

/-- Per-repository update protocol of the Coordinator (sync.go lines 604-644):
for each repository a worker emits at most one active-status update followed
by at most one terminal-status update. -/
inductive ProtocolShape : List RepositoryStatus → Prop where
  | nil : ProtocolShape []
  | activeOnly (a : RepositoryStatus) (ha : a.activeCheck = true) :
      ProtocolShape [a]
  | activeTerminal (a t : RepositoryStatus) (ha : a.activeCheck = true)
      (ht : t.terminalCheck = true) : ProtocolShape [a, t]

/-- A whole-run update stream is a Coordinator trace when its per-name
subsequences follow the protocol. -/
def CoordinatorTrace (us : List StatusUpdate) : Prop :=
  ∀ n : String,
    ProtocolShape ((us.filter (fun u => u.name == n)).map (fun u => u.status))

/-- The aggregator's stamping clock is monotone along the stream. -/
def TimesMono (us : List StatusUpdate) : Prop :=
  List.Pairwise (fun u v => u.time ≤ v.time) us

theorem terminal_not_active (s : RepositoryStatus)
    (h : s.terminalCheck = true) : s.activeCheck = false := by
  cases s <;> revert h <;> decide

/-- Phase invariant tying one record's fields to the updates still to arrive
for its name: an untouched record is Pending with clear timestamps and a
protocol-shaped future; a record in an active state has its start stamp no
later than every future update and no end stamp; a settled record has its end
stamp no earlier than its start stamp and no future updates. -/
def PhaseInv (r : Repository) (rus : List StatusUpdate) : Prop :=
  (r.status = RepositoryStatus.pending ∧ r.startTime = none ∧
    r.endTime = none ∧ ProtocolShape (rus.map (fun u => u.status)))
  ∨ (r.status.activeCheck = true ∧ r.endTime = none ∧
    (∃ ta, r.startTime = some ta ∧ ∀ u ∈ rus, ta ≤ u.time) ∧
    (rus = [] ∨ ∃ u, rus = [u] ∧ u.status.terminalCheck = true))
  ∨ (r.status.terminalCheck = true ∧ rus = [] ∧
    (∃ te, r.endTime = some te ∧ ∀ ta, r.startTime = some ta → ta ≤ te))

/-- Collection-wide invariant: every record satisfies the phase invariant
with respect to the pending updates addressed to it. -/
def StateInv (repos : List Repository) (us : List StatusUpdate) : Prop :=
  ∀ r ∈ repos, PhaseInv r (us.filter (fun u => u.name == r.name))

theorem phaseInv_apply (r : Repository) (u : StatusUpdate)
    (rest : List StatusUpdate)
    (hinv : PhaseInv r (u :: rest))
    (hfut : ∀ v ∈ rest, u.time ≤ v.time) :
    PhaseInv (applyToRecord r u.status u.error u.time) rest := by
  rcases hinv with ⟨hst, hstart, hend, hshape⟩ | ⟨hact, hend, ⟨ta, hta, hfu⟩, hsh⟩ |
    ⟨hterm, hnil, _⟩
  · rw [List.map_cons] at hshape
    generalize hL : List.map (fun u => u.status) rest = L at hshape
    cases hshape with
    | activeOnly a ha =>
      have hrest : rest = [] := List.map_eq_nil_iff.mp hL
      subst hrest
      refine Or.inr (Or.inl ⟨ha, ?_, ⟨u.time, ?_, ?_⟩, Or.inl rfl⟩)
      · show (if u.status.activeCheck then r.endTime
          else if u.status.terminalCheck then some u.time else r.endTime) = none
        rw [ha]
        simpa using hend
      · show (if u.status.activeCheck then some u.time else r.startTime) =
          some u.time
        rw [ha]
        rfl
      · intro v hv
        simp at hv
    | activeTerminal a t ha ht =>
      obtain ⟨v, hv, hrest⟩ : ∃ v, rest = [v] ∧ v.status = t := by
        cases rest with
        | nil => simp at hL
        | cons w ws =>
          cases ws with
          | nil =>
            simp at hL
            exact ⟨w, rfl, hL⟩
          | cons x xs => simp at hL
      subst hv
      refine Or.inr (Or.inl ⟨ha, ?_, ⟨u.time, ?_, ?_⟩, Or.inr ⟨v, rfl, ?_⟩⟩)
      · show (if u.status.activeCheck then r.endTime
          else if u.status.terminalCheck then some u.time else r.endTime) = none
        rw [ha]
        simpa using hend
      · show (if u.status.activeCheck then some u.time else r.startTime) =
          some u.time
        rw [ha]
        rfl
      · intro w hw
        exact hfut w hw
      · rw [hrest]
        exact ht
  · rcases hsh with hsh | ⟨w, hw, hwt⟩
    · simp at hsh
    · have hwu : w = u := by
        have := congrArg List.head? hw
        simpa using this.symm
      have hrest : rest = [] := by
        have := congrArg List.tail hw
        simpa using this
      subst hrest
      rw [hwu] at hwt
      have hnact : u.status.activeCheck = false := terminal_not_active _ hwt
      refine Or.inr (Or.inr ⟨hwt, rfl, ⟨u.time, ?_, ?_⟩⟩)
      · show (if u.status.activeCheck then r.endTime
          else if u.status.terminalCheck then some u.time else r.endTime) =
          some u.time
        rw [hnact, hwt]
        rfl
      · intro tb htb
        have h2 : (if u.status.activeCheck then some u.time else r.startTime) =
            some tb := htb
        rw [hnact] at h2
        simp at h2
        rw [hta] at h2
        have h3 : ta = tb := Option.some.inj h2
        rw [← h3]
        exact hfu u (by simp)
  · simp at hnil

theorem updateRepositoryStatus_names (repos : List Repository) (n : String)
    (s : RepositoryStatus) (e : Option String) (t : Nat) :
    (updateRepositoryStatus repos n s e t).map (fun r => r.name) =
      repos.map (fun r => r.name) := by
  induction repos with
  | nil => rfl
  | cons r rs ih =>
    unfold updateRepositoryStatus
    by_cases h : r.name = n
    · simp [h, applyToRecord]
    · simp [h, ih]

theorem stateInv_step (repos : List Repository) (u : StatusUpdate)
    (rest : List StatusUpdate)
    (hnodup : (repos.map (fun r => r.name)).Nodup)
    (hfut : ∀ v ∈ rest, u.time ≤ v.time)
    (hinv : StateInv repos (u :: rest)) :
    StateInv (updateRepositoryStatus repos u.name u.status u.error u.time)
      rest := by
  induction repos with
  | nil => intro r hr; simp [updateRepositoryStatus] at hr
  | cons r rs ih =>
    rw [List.map_cons, List.nodup_cons] at hnodup
    have hinvr := hinv r (by simp)
    have hinvrs : StateInv rs (u :: rest) := fun x hx => hinv x (by simp [hx])
    unfold updateRepositoryStatus
    by_cases heq : r.name = u.name
    · rw [if_pos heq]
      intro x hx
      rcases List.mem_cons.mp hx with hx | hx
      · subst hx
        have hfilter : (u :: rest).filter (fun v => v.name == r.name) =
            u :: rest.filter (fun v => v.name == r.name) := by
          rw [List.filter_cons]
          simp [heq]
        rw [hfilter] at hinvr
        have happlied := phaseInv_apply r u
          (rest.filter (fun v => v.name == r.name)) hinvr
          (fun v hv => hfut v (List.mem_of_mem_filter hv))
        have hname : (applyToRecord r u.status u.error u.time).name = r.name := rfl
        rw [hname]
        exact happlied
      · have hxname : x.name ≠ r.name := by
          intro hcontra
          exact hnodup.1 (by
            rw [← hcontra]
            exact List.mem_map.mpr ⟨x, hx, rfl⟩)
        have hfilter : (u :: rest).filter (fun v => v.name == x.name) =
            rest.filter (fun v => v.name == x.name) := by
          rw [List.filter_cons]
          have : (u.name == x.name) = false := by
            rw [beq_eq_false_iff_ne]
            rw [← heq] at *
            exact fun hc => hxname hc.symm
          simp [this]
        have := hinvrs x hx
        rw [hfilter] at this
        exact this
    · rw [if_neg heq]
      intro x hx
      rcases List.mem_cons.mp hx with hx | hx
      · subst hx
        have hfilter : (u :: rest).filter (fun v => v.name == x.name) =
            rest.filter (fun v => v.name == x.name) := by
          rw [List.filter_cons]
          have : (u.name == x.name) = false := by
            rw [beq_eq_false_iff_ne]
            exact fun hc => heq hc.symm
          simp [this]
        have := hinv x (by simp)
        rw [hfilter] at this
        exact this
      · exact ih hnodup.2 hinvrs x hx

theorem stateInv_applyUpdates (pre : List StatusUpdate) :
    ∀ (suf : List StatusUpdate) (repos : List Repository),
      (repos.map (fun r => r.name)).Nodup →
      TimesMono (pre ++ suf) →
      StateInv repos (pre ++ suf) →
      StateInv (applyUpdates repos pre) suf := by
  induction pre with
  | nil => intro suf repos _ _ h; exact h
  | cons u pre ih =>
    intro suf repos hnodup hmono hinv
    rw [List.cons_append] at hmono hinv
    rw [TimesMono, List.pairwise_cons] at hmono
    show StateInv
      (applyUpdates (updateRepositoryStatus repos u.name u.status u.error u.time)
        pre) suf
    refine ih suf _ ?_ hmono.2 ?_
    · rw [updateRepositoryStatus_names]
      exact hnodup
    · exact stateInv_step repos u (pre ++ suf) hnodup
        (fun v hv => hmono.1 v hv) hinv

theorem stateInv_init (names : List String) (us : List StatusUpdate)
    (htrace : CoordinatorTrace us) :
    StateInv (names.map initRepository) us := by
  intro r hr
  obtain ⟨n, hn, rfl⟩ := List.mem_map.mp hr
  exact Or.inl ⟨rfl, rfl, rfl, htrace n⟩

theorem phaseInv_record (r : Repository) (rus : List StatusUpdate)
    (h : PhaseInv r rus) :
    (r.endTime.isSome = true → r.status.terminalCheck = true) ∧
    (∀ s e, r.startTime = some s → r.endTime = some e → s ≤ e) := by
  rcases h with ⟨_, hstart, hend, _⟩ | ⟨_, hend, _, _⟩ |
    ⟨hterm, _, te, hte, hle⟩
  · rw [hend]
    exact ⟨fun hc => by simp at hc, fun s e _ hc => by simp at hc⟩
  · rw [hend]
    exact ⟨fun hc => by simp at hc, fun s e _ hc => by simp at hc⟩
  · refine ⟨fun _ => hterm, fun s e hs he => ?_⟩
    rw [hte] at he
    rw [← Option.some.inj he]
    exact hle s hs

/-- Claim C9: over any Coordinator-protocol update stream with monotone
stamping clock, applied by the aggregator to the freshly discovered records
of distinct names, at every point of the run (after any prefix of the stream)
every record's endTime is set only while its status is terminal — never while
it is Pending/Cloning/Fetching — and whenever both timestamps are present,
startTime is not later than endTime. -/
theorem c9_timestamps_invariant (names : List String) (us : List StatusUpdate)
    (hnodup : names.Nodup) (htrace : CoordinatorTrace us)
    (hmono : TimesMono us) (pre suf : List StatusUpdate)
    (hsplit : us = pre ++ suf) :
    ∀ r ∈ applyUpdates (fetchRepositories (Except.ok names)) pre,
      (r.endTime.isSome = true → r.status.terminalCheck = true) ∧
      (∀ s e, r.startTime = some s → r.endTime = some e → s ≤ e) := by
  subst hsplit
  have hnames : ((names.map initRepository).map (fun r => r.name)).Nodup := by
    rw [List.map_map]
    have : ((fun r => Repository.name r) ∘ initRepository) = fun n => n := rfl
    rw [this]
    simpa using hnodup
  have hinv := stateInv_applyUpdates pre suf (names.map initRepository)
    hnames hmono (stateInv_init names (pre ++ suf) htrace)
  intro r hr
  exact phaseInv_record r _ (hinv r hr)

/-- Witness for C9 on a two-update trace over one repository: Cloning at
clock 3, then Completed at clock 5 leave the record settled with
startTime 3 ≤ endTime 5. -/
theorem c9_witness :
    applyUpdates (fetchRepositories (Except.ok ["a"]))
        [⟨"a", RepositoryStatus.cloning, none, 3⟩,
         ⟨"a", RepositoryStatus.completed, none, 5⟩] =
      [{ name := "a", status := RepositoryStatus.completed, error := none,
         startTime := some 3, endTime := some 5 }] ∧
    (3 : Nat) ≤ 5 ∧
    RepositoryStatus.completed.terminalCheck = true := by
  have happly : applyUpdates (fetchRepositories (Except.ok ["a"]))
      [⟨"a", RepositoryStatus.cloning, none, 3⟩,
       ⟨"a", RepositoryStatus.completed, none, 5⟩] =
      [{ name := "a", status := RepositoryStatus.completed, error := none,
         startTime := some 3, endTime := some 5 }] := by decide
  have h := c9_timestamps_invariant ["a"]
    [⟨"a", RepositoryStatus.cloning, none, 3⟩,
     ⟨"a", RepositoryStatus.completed, none, 5⟩]
    (by decide)
    (by
      intro n
      by_cases h : "a" = n
      · subst h
        exact ProtocolShape.activeTerminal RepositoryStatus.cloning
          RepositoryStatus.completed rfl rfl
      · have : (("a" : String) == n) = false := by
          rw [beq_eq_false_iff_ne]
          exact h
        simp [List.filter, this]
        exact ProtocolShape.nil)
    (by
      constructor
      · intro v hv
        simp at hv
        rw [hv]
        decide
      · exact List.pairwise_singleton _ _)
    [⟨"a", RepositoryStatus.cloning, none, 3⟩,
     ⟨"a", RepositoryStatus.completed, none, 5⟩]
    [] (by simp)
  have hr := h
    ({ name := "a", status := RepositoryStatus.completed, error := none,
       startTime := some 3, endTime := some 5 } : Repository)
    (by rw [happly]; simp)
  exact ⟨happly, hr.2 3 5 rfl rfl, hr.1 rfl⟩

end OrgSync
